import Mathlib

/-!
Verification of the Impala scalar-expression evaluation runtime.

The development shallowly embeds two components:

* `SortExecExprs` (from `exec/sort-exec-exprs.cc`): the ordering-expression
  set used by sort operators.  Its methods are translated statement by
  statement; each batch call on a context list (`ExprContext::Prepare`,
  `ExprContext::Open`, `ExprContext::CloneIfNotExists`, `ExprContext::Close`)
  is recorded as an `Event` so that call order is observable.  The external
  `ExprContext`/`Expr` batch operations themselves are not part of the
  sources, so their outcomes are supplied by oracles in `Env`.

* `ScalarExprEvaluator` (from `exprs/scalar-expr-evaluator.h`): the header
  declares the lifecycle flags and the inline `fn_context` accessor; the
  implementation file is absent, so the lifecycle operations, `Clone`,
  per-row evaluation and `GetError` are modelled from the specification.
-/

namespace Impala

/-- Expression context (`ExprContext`).  Contexts are modelled by identity:
an original context carries a numeric id, and a thread-local clone records
the context it was cloned from. -/
inductive ExprContext where
  | orig (id : Nat)
  | cloneOf (src : ExprContext)
deriving DecidableEq

/-- Row descriptor (`RowDescriptor`), identified by a tag. -/
structure RowDescriptor where
  id : Nat
deriving DecidableEq

/-- Status of a fallible operation (`Status`); an error carries a code. -/
inductive Status where
  | ok
  | error (code : Nat)
deriving DecidableEq

/-- Serialized thrift expression (`TExpr`), identified by a tag. -/
abbrev TExpr := Nat

/-- Built expression tree root (`Expr`), identified by a tag. -/
abbrev SExprId := Nat

/-- Which member list of `SortExecExprs` a batch `ExprContext` call targets. -/
inductive ListRole where
  | sortTupleSlot
  | lhsOrdering
  | rhsOrdering
deriving DecidableEq

/-- Observable batch `ExprContext` operations performed by `SortExecExprs`,
one event per call statement in the source. -/
inductive Event where
  | prepareEv (r : ListRole) (rd : RowDescriptor)
  | openEv (r : ListRole)
  | cloneIfNotExistsEv
  | closeEv (r : ListRole)
deriving DecidableEq

/-- Oracles for the external collaborators used by `SortExecExprs` (the
expression-tree builder and the batch `ExprContext` operations live outside
the embedded sources, so only their observable outcomes are modelled). -/
structure Env where
  prepareStatus : List ExprContext → RowDescriptor → Status
  openStatus : List ExprContext → Status
  createExprTrees : List TExpr → Except Nat (List SExprId)
  exprContextCreate : List SExprId → List ExprContext

/-- Modelled from the spec: `ExprContext::CloneIfNotExists` (absent from the
sources; only its caller is present).  It derives the output list as
thread-local clones of the input contexts only when no output contexts were
supplied externally (output list empty); an externally supplied non-empty
list is left unchanged. -/
def ExprContextCloneIfNotExists (ctxs newCtxs : List ExprContext) : List ExprContext :=
  if newCtxs.isEmpty then ctxs.map ExprContext.cloneOf else newCtxs

/-- State of `SortExecExprs`: the lhs ordering contexts, the rhs ordering
contexts, the sort-tuple materialization contexts, and the
`materialize_tuple_` flag. -/
structure SortExecExprs where
  lhs_ordering_expr_ctxs_ : List ExprContext
  rhs_ordering_expr_ctxs_ : List ExprContext
  sort_tuple_slot_expr_ctxs_ : List ExprContext
  materialize_tuple_ : Bool
deriving DecidableEq

/-- Serialized sort metadata (`TSortInfo`): the ordering expressions and the
optional sort-tuple slot expressions (`__isset` modelled by `Option`). -/
structure TSortInfo where
  ordering_exprs : List TExpr
  sort_tuple_slot_exprs : Option (List TExpr)

/-- `SortExecExprs::Init(thrift_ordering_exprs, thrift_sort_tuple_slot_exprs,
pool)` from the source: builds expression trees for the ordering expressions
and wraps them in fresh contexts; when sort-tuple slot expressions are
supplied it sets `materialize_tuple_` and builds their trees and contexts,
otherwise it clears `materialize_tuple_`.  Each `Expr::CreateExprTrees`
failure is returned immediately. -/
def SortExecExprs.Init (env : Env) (s : SortExecExprs) (thrift_ordering_exprs : List TExpr)
    (thrift_sort_tuple_slot_exprs : Option (List TExpr)) : Status × SortExecExprs :=
  match env.createExprTrees thrift_ordering_exprs with
  | Except.error c => (Status.error c, s)
  | Except.ok lhs_ordering_exprs =>
    let s1 := { s with lhs_ordering_expr_ctxs_ := env.exprContextCreate lhs_ordering_exprs }
    match thrift_sort_tuple_slot_exprs with
    | some ts =>
      let s2 := { s1 with materialize_tuple_ := true }
      match env.createExprTrees ts with
      | Except.error c => (Status.error c, s2)
      | Except.ok sort_tuple_slot_exprs =>
        (Status.ok,
         { s2 with sort_tuple_slot_expr_ctxs_ := env.exprContextCreate sort_tuple_slot_exprs })
    | none => (Status.ok, { s1 with materialize_tuple_ := false })

/-- `SortExecExprs::Init(sort_info, pool)` from the source: delegates to the
thrift-list variant, passing the sort-tuple slot expressions only when set. -/
def SortExecExprs.InitSortInfo (env : Env) (s : SortExecExprs) (sort_info : TSortInfo) :
    Status × SortExecExprs :=
  SortExecExprs.Init env s sort_info.ordering_exprs sort_info.sort_tuple_slot_exprs

/-- `SortExecExprs::Init(lhs_ordering_expr_ctxs, rhs_ordering_expr_ctxs)` from
the source: stores the two already-built context lists and returns OK. -/
def SortExecExprs.InitCtxs (s : SortExecExprs)
    (lhs_ordering_expr_ctxs rhs_ordering_expr_ctxs : List ExprContext) :
    Status × SortExecExprs :=
  (Status.ok,
   { s with lhs_ordering_expr_ctxs_ := lhs_ordering_expr_ctxs,
            rhs_ordering_expr_ctxs_ := rhs_ordering_expr_ctxs })

/-- `SortExecExprs::Prepare` from the source: when `materialize_tuple_` is set
it first prepares the sort-tuple contexts against `child_row_desc` (returning
its error, if any), then prepares the lhs ordering contexts against
`output_row_desc` (returning its error, if any).  Also returns the trace of
batch prepare calls. -/
def SortExecExprs.Prepare (env : Env) (s : SortExecExprs)
    (child_row_desc output_row_desc : RowDescriptor) : Status × List Event :=
  match (if s.materialize_tuple_
         then (env.prepareStatus s.sort_tuple_slot_expr_ctxs_ child_row_desc,
               [Event.prepareEv ListRole.sortTupleSlot child_row_desc])
         else (Status.ok, [])) with
  | (Status.error c, tr) => (Status.error c, tr)
  | (Status.ok, tr1) =>
    match env.prepareStatus s.lhs_ordering_expr_ctxs_ output_row_desc with
    | Status.error c => (Status.error c, tr1 ++ [Event.prepareEv ListRole.lhsOrdering output_row_desc])
    | Status.ok => (Status.ok, tr1 ++ [Event.prepareEv ListRole.lhsOrdering output_row_desc])

/-- `SortExecExprs::Open` from the source: when `materialize_tuple_` is set it
first opens the sort-tuple contexts (returning its error, if any), then opens
the lhs ordering contexts (returning its error, if any), then derives the rhs
ordering contexts via `ExprContext::CloneIfNotExists`.  Also returns the
trace of batch calls. -/
def SortExecExprs.Open (env : Env) (s : SortExecExprs) :
    Status × SortExecExprs × List Event :=
  match (if s.materialize_tuple_
         then (env.openStatus s.sort_tuple_slot_expr_ctxs_,
               [Event.openEv ListRole.sortTupleSlot])
         else (Status.ok, [])) with
  | (Status.error c, tr) => (Status.error c, s, tr)
  | (Status.ok, tr1) =>
    match env.openStatus s.lhs_ordering_expr_ctxs_ with
    | Status.error c => (Status.error c, s, tr1 ++ [Event.openEv ListRole.lhsOrdering])
    | Status.ok =>
      (Status.ok,
       { s with rhs_ordering_expr_ctxs_ :=
           ExprContextCloneIfNotExists s.lhs_ordering_expr_ctxs_ s.rhs_ordering_expr_ctxs_ },
       tr1 ++ [Event.openEv ListRole.lhsOrdering, Event.cloneIfNotExistsEv])

/-- `SortExecExprs::Close` from the source: when `materialize_tuple_` is set it
closes the sort-tuple contexts first, then closes the rhs ordering contexts,
then the lhs ordering contexts.  Returns the trace of batch close calls; the
member lists themselves are not modified. -/
def SortExecExprs.CloseTrace (s : SortExecExprs) : List Event :=
  (if s.materialize_tuple_ then [Event.closeEv ListRole.sortTupleSlot] else [])
    ++ [Event.closeEv ListRole.rhsOrdering, Event.closeEv ListRole.lhsOrdering]

/-- A call in a lifecycle call sequence against a `SortExecExprs`. -/
inductive SortOp where
  | openOp
  | closeOp
deriving DecidableEq

/-- Runs a sequence of `Open`/`Close` calls against a `SortExecExprs`,
accumulating the trace of batch `ExprContext` calls. -/
def SortExecExprs.RunOps (env : Env) : List SortOp → SortExecExprs → SortExecExprs × List Event
  | [], s => (s, [])
  | SortOp.openOp :: rest, s =>
    let r := SortExecExprs.Open env s
    let k := SortExecExprs.RunOps env rest r.2.1
    (k.1, r.2.2 ++ k.2)
  | SortOp.closeOp :: rest, s =>
    let k := SortExecExprs.RunOps env rest s
    (k.1, SortExecExprs.CloseTrace s ++ k.2)

/-- Per-node runtime state (`FunctionContext`): fragment-scope state (shared
by reference with clones, read-only after Open), thread-scope state (private
per evaluator instance), and the recorded error, if any.  States are modelled
by numeric identity and errors by numeric codes. -/
structure FunctionContext where
  fragment_state : Nat
  thread_state : Nat
  error_msg : Option Nat
deriving DecidableEq

/-- Modelled from the spec: `FunctionContext::SetError` records a failure on
the owning context; only the first recorded failure is kept. -/
def FunctionContext.SetError (c : FunctionContext) (code : Nat) : FunctionContext :=
  if c.error_msg.isSome then c else { c with error_msg := some code }

/-- Memory pool (`MemPool`), external: allocations are modelled as numeric
identities starting at `base_id`. -/
structure MemPool where
  base_id : Nat
deriving DecidableEq

/-- State of a `ScalarExprEvaluator` as declared in the header: the
`FunctionContext` vector for the nodes of the expression tree and the
lifecycle flags `initialized_`, `opened_`, `closed_`, `is_clone_`.  The
`const_eval_fails_` oracle stands for whether the constant computation
performed by the first `Open` call fails. -/
structure ScalarExprEvaluator where
  fn_ctxs_ : List FunctionContext
  initialized_ : Bool
  opened_ : Bool
  closed_ : Bool
  is_clone_ : Bool
  const_eval_fails_ : Bool
deriving DecidableEq

/-- Observable one-time work done by the evaluator lifecycle operations. -/
inductive LifeEvent where
  | computeConstants
  | releaseResources
deriving DecidableEq

/-- Modelled from the spec: `ScalarExprEvaluator::Open` (only its declaration
is in the sources).  Idempotent: on the first call it evaluates every
provably-constant sub-expression once and initializes fragment-scope state;
later calls are no-ops.  A failing first-call constant computation (the
`const_eval_fails_` oracle) returns an error and leaves the evaluator
unopened. -/
def ScalarExprEvaluator.Open (e : ScalarExprEvaluator) :
    Status × ScalarExprEvaluator × List LifeEvent :=
  if e.opened_ then (Status.ok, e, [])
  else if e.const_eval_fails_ then (Status.error 1, e, [LifeEvent.computeConstants])
  else (Status.ok, { e with initialized_ := true, opened_ := true },
        [LifeEvent.computeConstants])

/-- Modelled from the spec: `ScalarExprEvaluator::Close` (only its declaration
is in the sources).  Releases the resources held by this evaluator instance;
it has no effect if the evaluator is already closed, and never fails. -/
def ScalarExprEvaluator.Close (e : ScalarExprEvaluator) :
    ScalarExprEvaluator × List LifeEvent :=
  if e.closed_ then (e, [])
  else ({ e with closed_ := true }, [LifeEvent.releaseResources])

/-- Lifecycle phase of an evaluator: 0 = Created, 1 = Opened, 2 = Closed. -/
def ScalarExprEvaluator.phase (e : ScalarExprEvaluator) : Nat :=
  if e.closed_ then 2 else if e.opened_ then 1 else 0

/-- Modelled from the spec: `ScalarExprEvaluator::Clone` (only its declaration
is in the sources).  Requires the source to be opened, otherwise it fails
with a precondition error (code 2).  The clone duplicates the
`FunctionContext` vector, sharing each context's fragment-scope state by
reference and allocating fresh thread-scope state from the given pool; the
clone is marked `is_clone_` and is considered opened. -/
def ScalarExprEvaluator.Clone (e : ScalarExprEvaluator) (pool : MemPool) :
    Except Nat ScalarExprEvaluator :=
  if e.opened_ then
    Except.ok
      { fn_ctxs_ := e.fn_ctxs_.enum.map fun p =>
          { fragment_state := p.2.fragment_state,
            thread_state := pool.base_id + p.1,
            error_msg := none },
        initialized_ := true, opened_ := true, closed_ := false,
        is_clone_ := true, const_eval_fails_ := e.const_eval_fails_ }
  else Except.error 2

/-- `ScalarExprEvaluator::fn_context(i)` from the header: DCHECKs `0 <= i` and
`i < fn_ctxs_.size()` and returns `fn_ctxs_[i]`.  The embedding returns
`none` exactly when a DCHECK fails (the out-of-bounds branch). -/
def ScalarExprEvaluator.fn_context (e : ScalarExprEvaluator) (i : Int) :
    Option FunctionContext :=
  if 0 ≤ i ∧ i < (e.fn_ctxs_.length : Int) then e.fn_ctxs_.get? i.toNat else none

/-- Modelled from the spec: a scalar expression tree (`ScalarExpr`).  A node
that calls a function carries the index `fn_ctx_idx` of its `FunctionContext`
and a primitive that combines the child values and may fail (`none`, e.g.
integer division by zero); slot references read the row and literals are
constants, neither needing a context. -/
inductive SExpr where
  | slotRef (col : Nat)
  | literal (v : Int)
  | binFn (fn_ctx_idx : Nat) (f : Int → Int → Option Int) (l r : SExpr)

/-- A row of integer slots. -/
abbrev Row := List Int

/-- A typed evaluation result: `none` is the defined NULL value. -/
abbrev Val := Option Int

/-- Records a failure (code = the context index) on the context at index `i`,
keeping the other contexts unchanged. -/
def setErrorAt (ctxs : List FunctionContext) (i : Nat) : List FunctionContext :=
  match ctxs.get? i with
  | some c => ctxs.set i (FunctionContext.SetError c i)
  | none => ctxs

/-- Modelled from the spec: per-row evaluation (`Get*Val`).  It always yields
a value: when a node's primitive fails, the failure is recorded on that
node's `FunctionContext` and the node yields the defined NULL value; a NULL
child value propagates to NULL without calling the primitive. -/
def evalSExpr : SExpr → Row → List FunctionContext → Val × List FunctionContext
  | SExpr.slotRef col, row, ctxs => (some (row.getD col 0), ctxs)
  | SExpr.literal v, _, ctxs => (some v, ctxs)
  | SExpr.binFn i f l r, row, ctxs =>
    let resL := evalSExpr l row ctxs
    let resR := evalSExpr r row resL.2
    match resL.1, resR.1 with
    | some a, some b =>
      match f a b with
      | some v => (some v, resR.2)
      | none => (none, setErrorAt resR.2 i)
    | _, _ => (none, resR.2)

/-- The error recorded on the context at index `j`, if any. -/
def errorCodeAt (ctxs : List FunctionContext) (j : Nat) : Option Nat :=
  (ctxs.get? j).bind FunctionContext.error_msg

/-- Loop of `GetError`: scans the contexts in index order, starting at index
`i`, and returns the first recorded failure among indices in
`[start_idx, end_idx)`. -/
def GetErrorLoop : List FunctionContext → Nat → Nat → Nat → Status
  | [], _, _, _ => Status.ok
  | c :: rest, i, start_idx, end_idx =>
    if start_idx ≤ i ∧ i < end_idx then
      match c.error_msg with
      | some code => Status.error code
      | none => GetErrorLoop rest (i + 1) start_idx end_idx
    else GetErrorLoop rest (i + 1) start_idx end_idx

/-- Modelled from the spec: `ScalarExprEvaluator::GetError(start_idx,
end_idx)` (only its declaration is in the sources) returns the first recorded
failure among the contexts with index in `[start_idx, end_idx)`, and OK when
none of them has failed. -/
def GetError (ctxs : List FunctionContext) (start_idx end_idx : Nat) : Status :=
  GetErrorLoop ctxs 0 start_idx end_idx

/-! ## Claims about `SortExecExprs` -/

/-- Claim C1 counterexample: on an ordering-expression set with
`materialize_tuple_` set, `Close` does not release the evaluator lists in the
claimed order rhs, lhs, materialization — it closes the materialization
contexts first. -/
theorem close_order_as_specified_refuted :
    ¬ (SortExecExprs.CloseTrace ⟨[], [], [], true⟩ =
        [Event.closeEv ListRole.rhsOrdering, Event.closeEv ListRole.lhsOrdering,
         Event.closeEv ListRole.sortTupleSlot]) := by decide

/-- Claim C1 (amended): `Close` releases the materialization contexts first
(when `materialize_tuple_` is set), then the rhs ordering contexts, then the
lhs ordering contexts; without materialization it releases rhs then lhs. -/
theorem close_releases_materialization_then_rhs_then_lhs (s : SortExecExprs) :
    (s.materialize_tuple_ = true →
      SortExecExprs.CloseTrace s =
        [Event.closeEv ListRole.sortTupleSlot, Event.closeEv ListRole.rhsOrdering,
         Event.closeEv ListRole.lhsOrdering]) ∧
    (s.materialize_tuple_ = false →
      SortExecExprs.CloseTrace s =
        [Event.closeEv ListRole.rhsOrdering, Event.closeEv ListRole.lhsOrdering]) := by
  constructor <;> intro h <;> simp [SortExecExprs.CloseTrace, h]

/-- Claim C1 witness: the amended close order at two concrete states. -/
theorem close_releases_materialization_then_rhs_then_lhs_witness :
    SortExecExprs.CloseTrace ⟨[ExprContext.orig 0], [ExprContext.orig 1], [ExprContext.orig 2], true⟩ =
      [Event.closeEv ListRole.sortTupleSlot, Event.closeEv ListRole.rhsOrdering,
       Event.closeEv ListRole.lhsOrdering] ∧
    SortExecExprs.CloseTrace ⟨[ExprContext.orig 0], [ExprContext.orig 1], [], false⟩ =
      [Event.closeEv ListRole.rhsOrdering, Event.closeEv ListRole.lhsOrdering] :=
  ⟨(close_releases_materialization_then_rhs_then_lhs
      ⟨[ExprContext.orig 0], [ExprContext.orig 1], [ExprContext.orig 2], true⟩).1 rfl,
   (close_releases_materialization_then_rhs_then_lhs
      ⟨[ExprContext.orig 0], [ExprContext.orig 1], [], false⟩).2 rfl⟩

/-- Claim C2: a successful `Open` opens the sort-tuple materialization
contexts when `materialize_tuple_` is set, then opens the lhs ordering
contexts, then derives the rhs ordering contexts as thread-local clones of
the lhs contexts — but only when no rhs contexts were supplied externally; an
externally supplied non-empty rhs list is left unchanged.  The lhs and
sort-tuple lists are untouched. -/
theorem open_order_and_rhs_clone_derivation (env : Env) (s : SortExecExprs)
    (h : (SortExecExprs.Open env s).1 = Status.ok) :
    (SortExecExprs.Open env s).2.2 =
      (if s.materialize_tuple_ then [Event.openEv ListRole.sortTupleSlot] else [])
        ++ [Event.openEv ListRole.lhsOrdering, Event.cloneIfNotExistsEv] ∧
    (SortExecExprs.Open env s).2.1.rhs_ordering_expr_ctxs_ =
      (if s.rhs_ordering_expr_ctxs_.isEmpty
       then s.lhs_ordering_expr_ctxs_.map ExprContext.cloneOf
       else s.rhs_ordering_expr_ctxs_) ∧
    (SortExecExprs.Open env s).2.1.lhs_ordering_expr_ctxs_ = s.lhs_ordering_expr_ctxs_ ∧
    (SortExecExprs.Open env s).2.1.sort_tuple_slot_expr_ctxs_ = s.sort_tuple_slot_expr_ctxs_ := by
  cases hmt : s.materialize_tuple_ <;>
    cases hts : env.openStatus s.sort_tuple_slot_expr_ctxs_ <;>
      cases hl : env.openStatus s.lhs_ordering_expr_ctxs_ <;>
        simp_all [SortExecExprs.Open, ExprContextCloneIfNotExists]

/-- Claim C2 witness: a successful open on a concrete state with an empty rhs
list derives the rhs contexts as clones of the lhs contexts. -/
theorem open_order_and_rhs_clone_derivation_witness :
    (SortExecExprs.Open
        ⟨fun _ _ => Status.ok, fun _ => Status.ok, fun _ => Except.ok [], fun _ => []⟩
        ⟨[ExprContext.orig 0], [], [], false⟩).2.2 =
      [Event.openEv ListRole.lhsOrdering, Event.cloneIfNotExistsEv] ∧
    (SortExecExprs.Open
        ⟨fun _ _ => Status.ok, fun _ => Status.ok, fun _ => Except.ok [], fun _ => []⟩
        ⟨[ExprContext.orig 0], [], [], false⟩).2.1.rhs_ordering_expr_ctxs_ =
      [ExprContext.cloneOf (ExprContext.orig 0)] := by
  have h := open_order_and_rhs_clone_derivation
    ⟨fun _ _ => Status.ok, fun _ => Status.ok, fun _ => Except.ok [], fun _ => []⟩
    ⟨[ExprContext.orig 0], [], [], false⟩ (by decide)
  exact ⟨h.1, h.2.1⟩

/-- Claim C4: `Prepare` binds the sort-tuple materialization contexts (when
`materialize_tuple_` is set) against the child row layout and the lhs
ordering contexts against the output row layout, and returns the first error
status when either binding fails. -/
theorem prepare_binds_and_propagates_first_error (env : Env) (s : SortExecExprs)
    (child output : RowDescriptor) :
    (∀ c, s.materialize_tuple_ = true →
        env.prepareStatus s.sort_tuple_slot_expr_ctxs_ child = Status.error c →
        SortExecExprs.Prepare env s child output =
          (Status.error c, [Event.prepareEv ListRole.sortTupleSlot child])) ∧
    (∀ c, (s.materialize_tuple_ = false ∨
            env.prepareStatus s.sort_tuple_slot_expr_ctxs_ child = Status.ok) →
        env.prepareStatus s.lhs_ordering_expr_ctxs_ output = Status.error c →
        (SortExecExprs.Prepare env s child output).1 = Status.error c) ∧
    ((s.materialize_tuple_ = false ∨
        env.prepareStatus s.sort_tuple_slot_expr_ctxs_ child = Status.ok) →
      env.prepareStatus s.lhs_ordering_expr_ctxs_ output = Status.ok →
      SortExecExprs.Prepare env s child output =
        (Status.ok,
         (if s.materialize_tuple_ then [Event.prepareEv ListRole.sortTupleSlot child] else [])
           ++ [Event.prepareEv ListRole.lhsOrdering output])) := by
  refine ⟨?_, ?_, ?_⟩
  · intro c hm he
    simp [SortExecExprs.Prepare, hm, he]
  · intro c hok he
    rcases hok with hm | hok
    · simp [SortExecExprs.Prepare, hm, he]
    · cases hmt : s.materialize_tuple_ <;> simp [SortExecExprs.Prepare, hmt, hok, he]
  · intro hok hl
    rcases hok with hm | hok
    · simp [SortExecExprs.Prepare, hm, hl]
    · cases hmt : s.materialize_tuple_ <;> simp [SortExecExprs.Prepare, hmt, hok, hl]

/-- Claim C4 witness: with both bindings succeeding, `Prepare` on a state
with materialization prepares the sort-tuple contexts against the child
layout and then the lhs contexts against the output layout. -/
theorem prepare_binds_and_propagates_first_error_witness :
    SortExecExprs.Prepare
        ⟨fun _ _ => Status.ok, fun _ => Status.ok, fun _ => Except.ok [], fun _ => []⟩
        ⟨[ExprContext.orig 0], [], [ExprContext.orig 5], true⟩ ⟨0⟩ ⟨1⟩ =
      (Status.ok,
       [Event.prepareEv ListRole.sortTupleSlot ⟨0⟩,
        Event.prepareEv ListRole.lhsOrdering ⟨1⟩]) := by
  have h := (prepare_binds_and_propagates_first_error
    ⟨fun _ _ => Status.ok, fun _ => Status.ok, fun _ => Except.ok [], fun _ => []⟩
    ⟨[ExprContext.orig 0], [], [ExprContext.orig 5], true⟩ ⟨0⟩ ⟨1⟩).2.2
    (Or.inr rfl) rfl
  simpa using h

/-- Claim C10: `Init` from two already-built ordering context lists always
returns OK, stores exactly those lists as lhs and rhs, and leaves the
`materialize_tuple_` flag and the sort-tuple context list unchanged. -/
theorem init_from_ctx_lists_stores_and_frames (s : SortExecExprs)
    (lhs rhs : List ExprContext) :
    (SortExecExprs.InitCtxs s lhs rhs).1 = Status.ok ∧
    (SortExecExprs.InitCtxs s lhs rhs).2.lhs_ordering_expr_ctxs_ = lhs ∧
    (SortExecExprs.InitCtxs s lhs rhs).2.rhs_ordering_expr_ctxs_ = rhs ∧
    (SortExecExprs.InitCtxs s lhs rhs).2.materialize_tuple_ = s.materialize_tuple_ ∧
    (SortExecExprs.InitCtxs s lhs rhs).2.sort_tuple_slot_expr_ctxs_ =
      s.sort_tuple_slot_expr_ctxs_ :=
  ⟨rfl, rfl, rfl, rfl, rfl⟩

/-- Claim C3: on success, the `Init` variant taking serialized ordering
expressions plus an optional materialization-expression list sets
`materialize_tuple_` to whether that list was supplied, and builds fresh
contexts for the trees created from each supplied list. -/
theorem init_thrift_sets_materialize_tuple (env : Env) (s : SortExecExprs)
    (ord : List TExpr) (tss : Option (List TExpr))
    (h : (SortExecExprs.Init env s ord tss).1 = Status.ok) :
    (SortExecExprs.Init env s ord tss).2.materialize_tuple_ = tss.isSome ∧
    (∃ es, env.createExprTrees ord = Except.ok es ∧
        (SortExecExprs.Init env s ord tss).2.lhs_ordering_expr_ctxs_ =
          env.exprContextCreate es) ∧
    (∀ ts, tss = some ts → ∃ es, env.createExprTrees ts = Except.ok es ∧
        (SortExecExprs.Init env s ord tss).2.sort_tuple_slot_expr_ctxs_ =
          env.exprContextCreate es) := by
  cases hord : env.createExprTrees ord with
  | error c => simp [SortExecExprs.Init, hord] at h
  | ok es =>
    cases tss with
    | none =>
      refine ⟨by simp [SortExecExprs.Init, hord],
              ⟨es, rfl, by simp [SortExecExprs.Init, hord]⟩, ?_⟩
      intro ts hts
      cases hts
    | some ts =>
      cases hts2 : env.createExprTrees ts with
      | error c => simp [SortExecExprs.Init, hord, hts2] at h
      | ok es2 =>
        refine ⟨by simp [SortExecExprs.Init, hord, hts2],
                ⟨es, rfl, by simp [SortExecExprs.Init, hord, hts2]⟩, ?_⟩
        intro ts2 hts
        injection hts with he
        subst he
        exact ⟨es2, hts2, by simp [SortExecExprs.Init, hord, hts2]⟩

/-- Claim C3 witness: a successful `Init` with a supplied
materialization-expression list sets `materialize_tuple_` and builds the lhs
contexts from the created trees. -/
theorem init_thrift_sets_materialize_tuple_witness :
    (SortExecExprs.Init
        ⟨fun _ _ => Status.ok, fun _ => Status.ok, fun l => Except.ok l,
         fun l => l.map ExprContext.orig⟩
        ⟨[], [], [], false⟩ [3] (some [4])).2.materialize_tuple_ = true ∧
    (SortExecExprs.Init
        ⟨fun _ _ => Status.ok, fun _ => Status.ok, fun l => Except.ok l,
         fun l => l.map ExprContext.orig⟩
        ⟨[], [], [], false⟩ [3] (some [4])).2.lhs_ordering_expr_ctxs_ =
      [ExprContext.orig 3] := by
  have h := init_thrift_sets_materialize_tuple
    ⟨fun _ _ => Status.ok, fun _ => Status.ok, fun l => Except.ok l,
     fun l => l.map ExprContext.orig⟩
    ⟨[], [], [], false⟩ [3] (some [4]) (by decide)
  refine ⟨by simpa using h.1, ?_⟩
  obtain ⟨es, hes, hlhs⟩ := h.2.1
  simp only [Except.ok.injEq] at hes
  subst hes
  simpa using hlhs

/-- `SortExecExprs::Open` never changes the `materialize_tuple_` flag. -/
theorem open_preserves_materialize_tuple (env : Env) (s : SortExecExprs) :
    (SortExecExprs.Open env s).2.1.materialize_tuple_ = s.materialize_tuple_ := by
  cases hmt : s.materialize_tuple_ <;>
    cases hts : env.openStatus s.sort_tuple_slot_expr_ctxs_ <;>
      cases hl : env.openStatus s.lhs_ordering_expr_ctxs_ <;>
        simp_all [SortExecExprs.Open]

/-- When `materialize_tuple_` is unset, `Open` emits only lhs-open and clone
events. -/
theorem open_trace_no_materialization (env : Env) (s : SortExecExprs)
    (h : s.materialize_tuple_ = false) :
    ∀ ev ∈ (SortExecExprs.Open env s).2.2,
      ev = Event.openEv ListRole.lhsOrdering ∨ ev = Event.cloneIfNotExistsEv := by
  cases hl : env.openStatus s.lhs_ordering_expr_ctxs_ <;>
    simp_all [SortExecExprs.Open]

/-- Any call sequence of `Open` and `Close` on a set with
`materialize_tuple_` unset never touches the sort-tuple context list. -/
theorem runops_trace_no_materialization (env : Env) (ops : List SortOp) :
    ∀ s : SortExecExprs, s.materialize_tuple_ = false →
      ∀ ev ∈ (SortExecExprs.RunOps env ops s).2,
        ev ≠ Event.openEv ListRole.sortTupleSlot ∧
        ev ≠ Event.closeEv ListRole.sortTupleSlot := by
  induction ops with
  | nil =>
    intro s h ev hev
    simp [SortExecExprs.RunOps] at hev
  | cons op rest ih =>
    intro s h ev hev
    cases op with
    | openOp =>
      simp only [SortExecExprs.RunOps, List.mem_append] at hev
      rcases hev with hev | hev
      · rcases open_trace_no_materialization env s h ev hev with h1 | h1 <;>
          subst h1 <;> exact ⟨by simp, by simp⟩
      · exact ih ((SortExecExprs.Open env s).2.1)
          (by rw [open_preserves_materialize_tuple]; exact h) ev hev
    | closeOp =>
      simp only [SortExecExprs.RunOps, List.mem_append] at hev
      rcases hev with hev | hev
      · simp only [SortExecExprs.CloseTrace, h, if_neg Bool.false_ne_true,
          List.nil_append, List.mem_cons, List.not_mem_nil, or_false] at hev
        rcases hev with h1 | h1 <;> subst h1 <;> exact ⟨by simp, by simp⟩
      · exact ih s h ev hev

/-- Claim C5: on an ordering-expression set with `materialize_tuple_` unset,
no call sequence of `Open` and `Close` ever opens or closes the sort-tuple
materialization context list, and `Close` completes with exactly the rhs and
lhs close calls. -/
theorem no_materialization_open_close_when_flag_unset (env : Env) (ops : List SortOp)
    (s : SortExecExprs) (h : s.materialize_tuple_ = false) :
    (∀ ev ∈ (SortExecExprs.RunOps env ops s).2,
        ev ≠ Event.openEv ListRole.sortTupleSlot ∧
        ev ≠ Event.closeEv ListRole.sortTupleSlot) ∧
    SortExecExprs.CloseTrace s =
      [Event.closeEv ListRole.rhsOrdering, Event.closeEv ListRole.lhsOrdering] :=
  ⟨runops_trace_no_materialization env ops s h, by simp [SortExecExprs.CloseTrace, h]⟩

/-- Claim C5 witness: an open-close sequence on a concrete set without
materialization touches no sort-tuple context list. -/
theorem no_materialization_open_close_when_flag_unset_witness :
    (∀ ev ∈ (SortExecExprs.RunOps
        ⟨fun _ _ => Status.ok, fun _ => Status.ok, fun _ => Except.ok [], fun _ => []⟩
        [SortOp.openOp, SortOp.closeOp]
        ⟨[ExprContext.orig 0], [], [], false⟩).2,
        ev ≠ Event.openEv ListRole.sortTupleSlot ∧
        ev ≠ Event.closeEv ListRole.sortTupleSlot) ∧
    SortExecExprs.CloseTrace ⟨[ExprContext.orig 0], [], [], false⟩ =
      [Event.closeEv ListRole.rhsOrdering, Event.closeEv ListRole.lhsOrdering] :=
  no_materialization_open_close_when_flag_unset
    ⟨fun _ _ => Status.ok, fun _ => Status.ok, fun _ => Except.ok [], fun _ => []⟩
    [SortOp.openOp, SortOp.closeOp] ⟨[ExprContext.orig 0], [], [], false⟩ rfl

/-! ## Claims about `ScalarExprEvaluator` -/

/-- Mapping a function of the element over an enumerated list forgets the
indices. -/
theorem enum_map_snd_comp (l : List α) (f : α → β) :
    l.enum.map (fun p => f p.2) = l.map f := by
  rw [show (fun p : Nat × α => f p.2) = f ∘ Prod.snd from rfl, ← List.map_map,
    List.enum_map_snd]

/-- Mapping a function of the index over an enumerated list is mapping it
over the index range. -/
theorem enum_map_fst_comp (l : List α) (f : Nat → β) :
    l.enum.map (fun p => f p.1) = (List.range l.length).map f := by
  rw [show (fun p : Nat × α => f p.1) = f ∘ Prod.fst from rfl, ← List.map_map,
    List.enum_map_fst]

/-- Claim C6: the evaluator lifecycle moves only forward through Created,
Opened, Closed; a second `Open` after a successful `Open` performs no further
constant computation and no state change, and `Close` after `Close` has no
effect. -/
theorem evaluator_lifecycle_monotone_and_idempotent (e : ScalarExprEvaluator) :
    ScalarExprEvaluator.phase e ≤ ScalarExprEvaluator.phase (ScalarExprEvaluator.Open e).2.1 ∧
    ScalarExprEvaluator.phase e ≤ ScalarExprEvaluator.phase (ScalarExprEvaluator.Close e).1 ∧
    ((ScalarExprEvaluator.Open e).1 = Status.ok →
      ScalarExprEvaluator.Open (ScalarExprEvaluator.Open e).2.1 =
        (Status.ok, (ScalarExprEvaluator.Open e).2.1, [])) ∧
    ScalarExprEvaluator.Close (ScalarExprEvaluator.Close e).1 =
      ((ScalarExprEvaluator.Close e).1, []) := by
  cases ho : e.opened_ <;> cases hc : e.closed_ <;> cases hf : e.const_eval_fails_ <;>
    simp_all [ScalarExprEvaluator.Open, ScalarExprEvaluator.Close, ScalarExprEvaluator.phase]

/-- Claim C6 witness: on a freshly created evaluator, the second `Open` after
a successful `Open` is a no-op and `Close` after `Close` has no effect. -/
theorem evaluator_lifecycle_monotone_and_idempotent_witness :
    ScalarExprEvaluator.Open
        (ScalarExprEvaluator.Open ⟨[], false, false, false, false, false⟩).2.1 =
      (Status.ok, (ScalarExprEvaluator.Open ⟨[], false, false, false, false, false⟩).2.1, []) ∧
    ScalarExprEvaluator.Close
        (ScalarExprEvaluator.Close ⟨[], false, false, false, false, false⟩).1 =
      ((ScalarExprEvaluator.Close ⟨[], false, false, false, false, false⟩).1, []) :=
  ⟨(evaluator_lifecycle_monotone_and_idempotent ⟨[], false, false, false, false, false⟩).2.2.1
      (by decide),
   (evaluator_lifecycle_monotone_and_idempotent ⟨[], false, false, false, false, false⟩).2.2.2⟩

/-- Claim C7: `Clone` before `Open` fails with the precondition error; after
a successful `Open` it yields a new evaluator that shares the original
contexts' fragment-scope state, owns fresh thread-scope state allocated from
the given pool, is marked `is_clone_`, and is considered opened. -/
theorem clone_requires_open_and_shares_fragment_state (e : ScalarExprEvaluator)
    (pool : MemPool) :
    (e.opened_ = false → ScalarExprEvaluator.Clone e pool = Except.error 2) ∧
    (e.opened_ = true → ∃ c, ScalarExprEvaluator.Clone e pool = Except.ok c ∧
        c.fn_ctxs_.map FunctionContext.fragment_state =
          e.fn_ctxs_.map FunctionContext.fragment_state ∧
        c.fn_ctxs_.map FunctionContext.thread_state =
          (List.range e.fn_ctxs_.length).map (fun i => pool.base_id + i) ∧
        c.is_clone_ = true ∧ c.opened_ = true ∧ c.closed_ = false) := by
  constructor
  · intro h
    simp [ScalarExprEvaluator.Clone, h]
  · intro h
    refine ⟨{ fn_ctxs_ := e.fn_ctxs_.enum.map fun p =>
                { fragment_state := p.2.fragment_state,
                  thread_state := pool.base_id + p.1, error_msg := none },
              initialized_ := true, opened_ := true, closed_ := false,
              is_clone_ := true, const_eval_fails_ := e.const_eval_fails_ },
            by simp [ScalarExprEvaluator.Clone, h], ?_, ?_, rfl, rfl, rfl⟩
    · rw [List.map_map]
      exact enum_map_snd_comp e.fn_ctxs_ FunctionContext.fragment_state
    · rw [List.map_map]
      exact enum_map_fst_comp e.fn_ctxs_ (fun i => pool.base_id + i)

/-- Claim C7 witness: cloning an unopened evaluator fails with the
precondition error, and cloning an opened one succeeds with the stated
sharing of fragment state and fresh pool-allocated thread state. -/
theorem clone_requires_open_and_shares_fragment_state_witness :
    ScalarExprEvaluator.Clone ⟨[⟨1, 2, none⟩], false, false, false, false, false⟩ ⟨10⟩ =
      Except.error 2 ∧
    (∃ c, ScalarExprEvaluator.Clone ⟨[⟨1, 2, none⟩], false, true, false, false, false⟩ ⟨10⟩ =
        Except.ok c ∧
      c.fn_ctxs_.map FunctionContext.fragment_state = [1] ∧
      c.fn_ctxs_.map FunctionContext.thread_state =
        (List.range 1).map (fun i => 10 + i) ∧
      c.is_clone_ = true ∧ c.opened_ = true ∧ c.closed_ = false) :=
  ⟨(clone_requires_open_and_shares_fragment_state
      ⟨[⟨1, 2, none⟩], false, false, false, false, false⟩ ⟨10⟩).1 rfl,
   (clone_requires_open_and_shares_fragment_state
      ⟨[⟨1, 2, none⟩], false, true, false, false, false⟩ ⟨10⟩).2 rfl⟩

/-- Claim C9: for an index within the registered contexts, both DCHECK bounds
of `fn_context` hold, the out-of-bounds branch is not taken, and the call
returns the i-th element of the context vector. -/
theorem fn_context_in_bounds_returns_ith (e : ScalarExprEvaluator) (i : Int)
    (h0 : 0 ≤ i) (h1 : i < (e.fn_ctxs_.length : Int)) :
    ∃ c, ScalarExprEvaluator.fn_context e i = some c ∧
      e.fn_ctxs_.get? i.toNat = some c := by
  have hlt : i.toNat < e.fn_ctxs_.length := by omega
  refine ⟨e.fn_ctxs_.get ⟨i.toNat, hlt⟩, ?_, List.get?_eq_get hlt⟩
  simp [ScalarExprEvaluator.fn_context, h0, h1, List.get?_eq_get hlt]

/-- Claim C9 witness: an in-bounds lookup at a concrete evaluator returns the
element at that index. -/
theorem fn_context_in_bounds_returns_ith_witness :
    (0 : Int) ≤ 1 ∧
    (1 : Int) <
      ((ScalarExprEvaluator.mk [⟨1, 2, none⟩, ⟨3, 4, none⟩] false true false
          false false).fn_ctxs_.length : Int) ∧
    ∃ c, ScalarExprEvaluator.fn_context
        ⟨[⟨1, 2, none⟩, ⟨3, 4, none⟩], false, true, false, false, false⟩ 1 = some c ∧
      (ScalarExprEvaluator.mk [⟨1, 2, none⟩, ⟨3, 4, none⟩] false true false
          false false).fn_ctxs_.get? (1 : Int).toNat = some c :=
  ⟨by decide, by decide,
   fn_context_in_bounds_returns_ith
     ⟨[⟨1, 2, none⟩, ⟨3, 4, none⟩], false, true, false, false, false⟩ 1
     (by decide) (by decide)⟩

/-- A non-NULL evaluation result means no primitive failed, so the contexts
are returned unchanged. -/
theorem eval_value_some_ctxs_unchanged (ex : SExpr) :
    ∀ (row : Row) (ctxs : List FunctionContext) (v : Int),
      (evalSExpr ex row ctxs).1 = some v → (evalSExpr ex row ctxs).2 = ctxs := by
  induction ex with
  | slotRef col => intro row ctxs v _; rfl
  | literal w => intro row ctxs v _; rfl
  | binFn i f l r ihl ihr =>
    intro row ctxs v hv
    cases hL : (evalSExpr l row ctxs).1 with
    | none => simp [evalSExpr, hL] at hv
    | some a =>
      cases hR : (evalSExpr r row (evalSExpr l row ctxs).2).1 with
      | none => simp [evalSExpr, hL, hR] at hv
      | some b =>
        cases hf : f a b with
        | none => simp [evalSExpr, hL, hR, hf] at hv
        | some w =>
          have h1 : (evalSExpr l row ctxs).2 = ctxs := ihl row ctxs a hL
          have h2 : (evalSExpr r row (evalSExpr l row ctxs).2).2 = ctxs := by
            rw [h1] at hR ⊢
            exact ihr row ctxs b hR
          simp [evalSExpr, hL, hR, hf, h2]

/-- When no context has a recorded error, the `GetError` scan reports OK from
any position and over any range. -/
theorem getErrorLoop_ok (ctxs : List FunctionContext)
    (hclean : ∀ j, errorCodeAt ctxs j = none) :
    ∀ i s e, GetErrorLoop ctxs i s e = Status.ok := by
  induction ctxs with
  | nil => intro i s e; rfl
  | cons c rest ih =>
    intro i s e
    have h0 : c.error_msg = none := hclean 0
    have hrest : ∀ j, errorCodeAt rest j = none := fun j => hclean (j + 1)
    by_cases hcond : s ≤ i ∧ i < e
    · simp [GetErrorLoop, hcond, h0, ih hrest]
    · simp [GetErrorLoop, hcond, ih hrest]

/-- The `GetError` scan returns the error of the lowest errored index within
the scanned range. -/
theorem getErrorLoop_first (ctxs : List FunctionContext) :
    ∀ (i s e k code : Nat), errorCodeAt ctxs k = some code → s ≤ i + k → i + k < e →
      (∀ m, m < k → s ≤ i + m → errorCodeAt ctxs m = none) →
      GetErrorLoop ctxs i s e = Status.error code := by
  induction ctxs with
  | nil =>
    intro i s e k code hk _ _ _
    simp [errorCodeAt] at hk
  | cons c rest ih =>
    intro i s e k code hk hs he hbefore
    cases k with
    | zero =>
      have hc : c.error_msg = some code := hk
      have hcond : s ≤ i ∧ i < e := ⟨by simpa using hs, by simpa using he⟩
      simp [GetErrorLoop, hcond, hc]
    | succ k =>
      have hrest : errorCodeAt rest k = some code := hk
      have hnext := ih (i + 1) s e k code hrest (by omega) (by omega)
        (fun m hm hsm => hbefore (m + 1) (by omega) (by omega))
      by_cases hcond : s ≤ i ∧ i < e
      · have hc : c.error_msg = none := hbefore 0 (Nat.succ_pos k) (by simpa using hcond.1)
        simp [GetErrorLoop, hcond, hc, hnext]
      · simp [GetErrorLoop, hcond, hnext]

/-- Claim C8: per-row evaluation yields a value for every row; it never
returns an error directly.  When no sub-expression has failed, `GetError`
over the whole context range reports OK; when a failure was recorded on some
context, the evaluation result is the defined NULL value and `GetError` over
any index range containing that context returns the first recorded failure
in the range. -/
theorem eval_errors_recorded_not_returned (ex : SExpr) (row : Row)
    (ctxs : List FunctionContext) (hclean : ∀ j, errorCodeAt ctxs j = none) :
    ((∀ j, errorCodeAt (evalSExpr ex row ctxs).2 j = none) →
      GetError (evalSExpr ex row ctxs).2 0 (evalSExpr ex row ctxs).2.length = Status.ok) ∧
    (∀ j, errorCodeAt (evalSExpr ex row ctxs).2 j ≠ none →
      (evalSExpr ex row ctxs).1 = none ∧
      (∀ s e, s ≤ j → j < e →
        ∃ k code, s ≤ k ∧ k < e ∧
          errorCodeAt (evalSExpr ex row ctxs).2 k = some code ∧
          (∀ m, s ≤ m → m < k → errorCodeAt (evalSExpr ex row ctxs).2 m = none) ∧
          GetError (evalSExpr ex row ctxs).2 s e = Status.error code)) := by
  constructor
  · intro hnone
    exact getErrorLoop_ok _ hnone 0 0 _
  · intro j hj
    constructor
    · cases hv : (evalSExpr ex row ctxs).1 with
      | none => rfl
      | some v =>
        exfalso
        apply hj
        rw [eval_value_some_ctxs_unchanged ex row ctxs v hv]
        exact hclean j
    · intro s e hsj hje
      have hPj : s ≤ j ∧ errorCodeAt (evalSExpr ex row ctxs).2 j ≠ none := ⟨hsj, hj⟩
      have hex : ∃ m, s ≤ m ∧ errorCodeAt (evalSExpr ex row ctxs).2 m ≠ none := ⟨j, hPj⟩
      have hkj : Nat.find hex ≤ j := Nat.find_min' hex hPj
      obtain ⟨hsk, hkerr⟩ := Nat.find_spec hex
      cases hcode : errorCodeAt (evalSExpr ex row ctxs).2 (Nat.find hex) with
      | none => exact absurd hcode hkerr
      | some code =>
        have hbefore : ∀ m, s ≤ m → m < Nat.find hex →
            errorCodeAt (evalSExpr ex row ctxs).2 m = none := by
          intro m hsm hmk
          by_contra hne
          exact Nat.find_min hex hmk ⟨hsm, hne⟩
        refine ⟨Nat.find hex, code, hsk, lt_of_le_of_lt hkj hje, hcode, hbefore, ?_⟩
        exact getErrorLoop_first _ 0 s e (Nat.find hex) code hcode
          (by simpa using hsk) (by simpa using lt_of_le_of_lt hkj hje)
          (fun m hm hsm => hbefore m (by simpa using hsm) hm)

/-- A failing integer division used by the C8 witness: `6 div 0` with the
divide node owning context 0. -/
def divByZeroExpr : SExpr :=
  SExpr.binFn 0 (fun a b => if b = 0 then none else some (a / b))
    (SExpr.literal 6) (SExpr.literal 0)

/-- Claim C8 witness: evaluating `6 div 0` over one clean context yields NULL,
records the failure on context 0, and `GetError` over the range containing it
reports that first failure. -/
theorem eval_errors_recorded_not_returned_witness :
    (evalSExpr divByZeroExpr [] [⟨0, 0, none⟩]).1 = none ∧
    (∃ k code, 0 ≤ k ∧ k < 1 ∧
      errorCodeAt (evalSExpr divByZeroExpr [] [⟨0, 0, none⟩]).2 k = some code ∧
      (∀ m, 0 ≤ m → m < k →
        errorCodeAt (evalSExpr divByZeroExpr [] [⟨0, 0, none⟩]).2 m = none) ∧
      GetError (evalSExpr divByZeroExpr [] [⟨0, 0, none⟩]).2 0 1 = Status.error code) := by
  have h := eval_errors_recorded_not_returned divByZeroExpr [] [⟨0, 0, none⟩]
    (by intro j; cases j <;> simp [errorCodeAt])
  have h2 := h.2 0 (by decide)
  exact ⟨h2.1, h2.2 0 1 (Nat.le_refl 0) Nat.one_pos⟩

end Impala
